import Mathlib

/-!
Verification development for the rate-limited ingestion / risk-gated order
execution pipeline (klakrketn/grok3).  The definitions below are a shallow
embedding of the TypeScript sources:

* `src/src/Services/OrderManagementService.ts` — order state machine
  (`createOrder`, `processPendingOrders`, `updateOrderStatus`, `cancelOrder`);
* `src/src/utils/RateLimiter.ts` — sliding-window rate limiter (`waitForSlot`);
* `src/src/Services/RateLimiter.ts` — token-bucket rate limiter
  (`waitForToken`, `tryConsume`, `consume`, `reset`);
* `src/src/Services/SolanaService.ts` — `retryWithBackoff`;
* `RiskManagementService` (`src/unnamed/part_004`) — `evaluateTradeRisk`,
  `calculateRiskScore`, `updatePosition`, `updateDailyStats`.

JavaScript numbers are modelled as rationals (`ℚ`), timestamps and counters as
naturals (`ℕ`).  JavaScript `Map`/`Set` are modelled as insertion-ordered
association lists / duplicate-free lists, matching iteration order.
-/

namespace Grok3

/-! ### Association-list model of JS `Map` and `Set` -/

/-- `Map.get`: first binding for the key, if any. -/
def lookupA {α : Type} : List (String × α) → String → Option α
  | [], _ => none
  | (k', v) :: t, k => if k' = k then some v else lookupA t k

/-- `Map.set`: replace the existing binding in place, else append
(JS maps keep insertion order). -/
def setA {α : Type} : List (String × α) → String → α → List (String × α)
  | [], k, v => [(k, v)]
  | (k', v') :: t, k, v =>
      if k' = k then (k, v) :: t else (k', v') :: setA t k v

/-- `Set.add`: append the element unless already present. -/
def addS (l : List String) (k : String) : List String :=
  if k ∈ l then l else l ++ [k]

/-- `Set.delete` / `Map.delete`: remove every occurrence of the key. -/
def delS (l : List String) (k : String) : List String :=
  l.filter (fun x => x != k)

/-! ### Order data model (`src/types/PumpFunTypes.ts` as used by the service) -/

inductive OrderStatus where
  | PENDING | FILLED | CANCELLED | FAILED
deriving DecidableEq, Repr

inductive OrderSide where
  | BUY | SELL
deriving DecidableEq, Repr

inductive OrderType where
  | MARKET | LIMIT | STOP_LIMIT
deriving DecidableEq, Repr

structure Fill where
  price : ℚ
  amount : ℚ
  timestamp : ℕ
deriving DecidableEq, Repr

structure ExecutionResult where
  success : Bool
  price : ℚ
  amount : ℚ
  timestamp : ℕ
  error : Option String
deriving DecidableEq, Repr

structure Order where
  id : String
  mint : String
  side : OrderSide
  otype : OrderType
  amount : ℚ
  price : Option ℚ
  status : OrderStatus
  createdAt : ℕ
  updatedAt : ℕ
  fills : List Fill
  remainingAmount : ℚ
  averagePrice : ℚ
  retryCount : ℕ
  warnings : List String
  stopLoss : Option ℚ
  takeProfit : Option ℚ
deriving DecidableEq, Repr

/-- State owned by `OrderManagementService`: the order map and the
pending-order id set. -/
structure OMSState where
  orders : List (String × Order)
  pendingOrders : List String
deriving DecidableEq, Repr

def OMSState.init : OMSState := ⟨[], []⟩

/-- `MAX_RETRIES` in `OrderManagementService`. -/
def MAX_RETRIES : ℕ := 3

/-- `MAX_CONCURRENT_ORDERS` in `OrderManagementService`. -/
def MAX_CONCURRENT_ORDERS : ℕ := 10

/-- `order.fills.reduce((sum, fill) => sum + fill.amount, 0)`. -/
def fillsTotalAmount (fills : List Fill) : ℚ :=
  fills.foldl (fun sum f => sum + f.amount) 0

/-- `order.fills.reduce((sum, fill) => sum + fill.price * fill.amount, 0)`. -/
def fillsWeightedSum (fills : List Fill) : ℚ :=
  fills.foldl (fun sum f => sum + f.price * f.amount) 0

/-- `updateOrderStatus(orderId, status, result?)`: set the status, bump
`updatedAt`, and on a successful result append a fill and recompute
`averagePrice` and `remainingAmount` from the whole fill list. -/
def updateOrderStatus (st : OMSState) (orderId : String) (status : OrderStatus)
    (result : Option ExecutionResult) (now : ℕ) : OMSState :=
  match lookupA st.orders orderId with
  | none => st
  | some order =>
    let o1 := { order with status := status, updatedAt := now }
    let o2 :=
      match result with
      | some r =>
        if r.success then
          let fills := o1.fills ++ [⟨r.price, r.amount, r.timestamp⟩]
          { o1 with
              fills := fills,
              averagePrice := fillsWeightedSum fills / fillsTotalAmount fills,
              remainingAmount := max 0 (o1.amount - fillsTotalAmount fills) }
        else o1
      | none => o1
    { st with orders := setA st.orders orderId o2 }

/-- One iteration of the `processPendingOrders` loop body for `orderId`,
where `exec` gives the outcome `executeOrder` returned for each order id. -/
def processOrderStep (exec : String → ExecutionResult) (now : ℕ)
    (st : OMSState) (orderId : String) : OMSState :=
  match lookupA st.orders orderId with
  | none => st
  | some order =>
    let result := exec orderId
    if result.success then
      updateOrderStatus { st with pendingOrders := delS st.pendingOrders orderId }
        orderId .FILLED (some result) now
    else if order.retryCount ≥ MAX_RETRIES then
      updateOrderStatus { st with pendingOrders := delS st.pendingOrders orderId }
        orderId .FAILED (some result) now
    else
      let order' := { order with
        retryCount := order.retryCount + 1,
        warnings := order.warnings ++ [result.error.getD "Unknown execution error"] }
      { st with orders := setA st.orders orderId order' }

/-- One full execution scan (`processPendingOrders`): iterate the pending set
as of scan start, processing each pending order once. -/
def processPendingOrders (exec : String → ExecutionResult) (now : ℕ)
    (st : OMSState) : OMSState :=
  st.pendingOrders.foldl (processOrderStep exec now) st

/-! ### Risk decision record (`TradeDecision` in `PumpFunTypes`) -/

structure TradeDecision where
  approved : Bool
  maxAmount : ℚ
  riskScore : ℚ
  warnings : List String
  timestamp : ℕ
  suggestedStopLoss : Option ℚ := none
  suggestedTakeProfit : Option ℚ := none
deriving DecidableEq, Repr

/-- `createOrder`: after acquiring a permit, throw (caught, returning `null`)
when the pending set is full or the risk check is not approved; otherwise
store a fresh `PENDING` order and add its id to the pending set.  `risk` is
the decision returned by `riskManagement.evaluateTradeRisk`, `newId` the id
produced by `generateOrderId()`. -/
def createOrder (st : OMSState) (mint : String) (side : OrderSide)
    (otype : OrderType) (amount : ℚ) (price : Option ℚ)
    (risk : TradeDecision) (newId : String) (now : ℕ) :
    Option String × OMSState :=
  if st.pendingOrders.length ≥ MAX_CONCURRENT_ORDERS then
    (none, st)
  else if ¬ risk.approved then
    (none, st)
  else
    let order : Order := {
      id := newId, mint := mint, side := side, otype := otype,
      amount := amount, price := price, status := .PENDING,
      createdAt := now, updatedAt := now, fills := [],
      remainingAmount := amount, averagePrice := 0, retryCount := 0,
      warnings := [], stopLoss := risk.suggestedStopLoss,
      takeProfit := risk.suggestedTakeProfit }
    (some newId,
      { st with orders := setA st.orders newId order,
                pendingOrders := addS st.pendingOrders newId })

/-- `cancelOrder(orderId)`: succeeds only on an existing `PENDING` order;
removes it from the pending set and marks it `CANCELLED`. -/
def cancelOrder (st : OMSState) (orderId : String) (now : ℕ) :
    Bool × OMSState :=
  match lookupA st.orders orderId with
  | none => (false, st)
  | some o =>
    if o.status ≠ .PENDING then (false, st)
    else
      (true,
        updateOrderStatus { st with pendingOrders := delS st.pendingOrders orderId }
          orderId .CANCELLED none now)

/-! ### Token-bucket rate limiter (`src/src/Services/RateLimiter.ts`)

Mutable fields `tokens` (a JS number, modelled as `ℚ`) and `lastRefill`
(a millisecond timestamp).  A sleep of `d` milliseconds resumes at a time
`≥ now + d`; this physical fact appears as a hypothesis on the times at
which the limiter is re-entered after a sleep. -/

structure TBState where
  tokens : ℚ
  lastRefill : ℕ
deriving DecidableEq, Repr

/-- Freshly constructed bucket: `tokens = maxTokens`, `lastRefill = now`. -/
def TBState.init (maxTokens : ℚ) (now : ℕ) : TBState :=
  ⟨maxTokens, now⟩

/-- `refill()`: add `floor(timePassed · refillRate / 1000)` tokens, capped at
`maxTokens`; `lastRefill` moves only when something was added. -/
def TBState.refill (maxTokens refillRate : ℚ) (s : TBState) (now : ℕ) : TBState :=
  let timePassed : ℕ := now - s.lastRefill
  let refillAmt : ℤ := ⌊(timePassed : ℚ) * refillRate / 1000⌋
  if refillAmt > 0 then
    ⟨min maxTokens (s.tokens + (refillAmt : ℚ)), now⟩
  else s

/-- The sleep `Math.ceil(1000 / refillRate)` performed by `waitForToken`. -/
def tbWaitTime (refillRate : ℚ) : ℕ := (⌈1000 / refillRate⌉).toNat

/-- `waitForToken()`: refill at call time `t1`; if fewer than 1 token, sleep
and refill again at wake-up time `t2`; then consume one token. -/
def TBState.waitForToken (maxTokens refillRate : ℚ) (s : TBState)
    (t1 t2 : ℕ) : TBState :=
  let s1 := s.refill maxTokens refillRate t1
  if s1.tokens < 1 then
    let s2 := s1.refill maxTokens refillRate t2
    { s2 with tokens := s2.tokens - 1 }
  else
    { s1 with tokens := s1.tokens - 1 }

/-- `tryConsume(n)`: refill, then consume `n` tokens only if available;
returns whether it consumed. -/
def TBState.tryConsume (maxTokens refillRate : ℚ) (s : TBState)
    (n : ℚ) (now : ℕ) : Bool × TBState :=
  let s1 := s.refill maxTokens refillRate now
  if s1.tokens ≥ n then (true, { s1 with tokens := s1.tokens - n })
  else (false, s1)

/-- `reset()`: back to a full bucket. -/
def TBState.reset (maxTokens : ℚ) (_s : TBState) (now : ℕ) : TBState :=
  ⟨maxTokens, now⟩

/-- Basic state-changing calls on the bucket, each stamped with the time(s)
at which it runs.  `consume(n)` is exactly a loop of `tryConsume(n)` calls
separated by sleeps, so a `consume` call contributes a run of `tryC` events
to a trace and needs no event of its own. -/
inductive TBOp where
  | wait (t1 t2 : ℕ)
  | tryC (n : ℚ) (t : ℕ)
  | reset (t : ℕ)
deriving DecidableEq, Repr

def TBOp.time : TBOp → ℕ
  | .wait t1 _ => t1
  | .tryC _ t => t
  | .reset t => t

def TBOp.endTime : TBOp → ℕ
  | .wait _ t2 => t2
  | .tryC _ t => t
  | .reset t => t

def TBState.applyOp (maxTokens refillRate : ℚ) (s : TBState) : TBOp → TBState
  | .wait t1 t2 => s.waitForToken maxTokens refillRate t1 t2
  | .tryC n t => (s.tryConsume maxTokens refillRate n t).2
  | .reset t => s.reset maxTokens t

def TBState.run (maxTokens refillRate : ℚ) (s : TBState) (ops : List TBOp) : TBState :=
  ops.foldl (TBState.applyOp maxTokens refillRate) s

/-- Physical admissibility of a trace: calls are issued in real-time order
(the wall clock is monotone) and every sleep of `waitForToken` lasts at
least the requested `Math.ceil(1000 / refillRate)` milliseconds. -/
def TBOpOk (refillRate : ℚ) (prev : ℕ) : TBOp → Prop
  | .wait t1 t2 => prev ≤ t1 ∧ t1 + tbWaitTime refillRate ≤ t2
  | .tryC n t => prev ≤ t ∧ 0 ≤ n
  | .reset t => prev ≤ t

def TBTraceOk (refillRate : ℚ) : ℕ → List TBOp → Prop
  | _, [] => True
  | prev, op :: ops => TBOpOk refillRate prev op ∧ TBTraceOk refillRate op.endTime ops

/-! ### Sliding-window rate limiter (`src/src/utils/RateLimiter.ts`)

State is the list `timestamps` of past grant times.  `waitForSlot` prunes
timestamps older than `interval`, and either grants (appending `now`) or
sleeps and retries recursively.  A retry after the sleep sees a later `now`
and the same semantic state (pruning commutes with later pruning, proved in
`swPrune_swPrune`), so an execution is faithfully described by the sequence
of times at which grants were admitted: `swRun` replays such a sequence and
returns `none` if some listed time would in fact have had to wait. -/

/-- `this.timestamps.filter(timestamp => now - timestamp < this.interval)`. -/
def swPrune (interval : ℕ) (ts : List ℕ) (now : ℕ) : List ℕ :=
  ts.filter (fun t => now - t < interval)

/-- The grant path of `waitForSlot` at time `now`: prune, then grant only if
strictly fewer than `maxRequests` timestamps remain in the window. -/
def swGrant (maxRequests interval : ℕ) (ts : List ℕ) (now : ℕ) :
    Option (List ℕ) :=
  let pruned := swPrune interval ts now
  if pruned.length ≥ maxRequests then none else some (pruned ++ [now])

/-- Replay a sequence of admitted grant times. -/
def swRun (maxRequests interval : ℕ) : List ℕ → List ℕ → Option (List ℕ)
  | ts, [] => some ts
  | ts, t :: rest =>
    match swGrant maxRequests interval ts t with
    | none => none
    | some ts' => swRun maxRequests interval ts' rest

/-- Number of grants in the trailing `interval`-millisecond window ending
at `T`. -/
def grantsInWindow (interval : ℕ) (grants : List ℕ) (T : ℕ) : ℕ :=
  grants.countP (fun g => g ≤ T && T - g < interval)

/-! ### `SolanaService.retryWithBackoff` -/

namespace Solana

/-- `MAX_RETRIES` in `SolanaService`. -/
def MAX_RETRIES : ℕ := 3

/-- `INITIAL_BACKOFF` in `SolanaService` (milliseconds). -/
def INITIAL_BACKOFF : ℕ := 1000

end Solana

/-- Character-list prefix test. -/
def charsStartsWith : List Char → List Char → Bool
  | [], _ => true
  | _ :: _, [] => false
  | a :: as, b :: bs => a == b && charsStartsWith as bs

/-- Character-list substring test. -/
def charsContains (pat : List Char) : List Char → Bool
  | [] => pat.isEmpty
  | c :: rest => charsStartsWith pat (c :: rest) || charsContains pat rest

/-- `String.prototype.includes`. -/
def containsSubstr (s pat : String) : Bool :=
  charsContains pat.data s.data

/-- `error.message.includes('429') || error.message.includes('Too Many Requests')`. -/
def isRateLimitMsg (msg : String) : Bool :=
  containsSubstr msg "429" || containsSubstr msg "Too Many Requests"

/-- `retryWithBackoff(operation, retryCount)`: run the attempt; on a
rate-limit error with `retryCount < MAX_RETRIES`, sleep
`INITIAL_BACKOFF · 2^retryCount` and recurse with `retryCount + 1`;
otherwise propagate the error.  `op k` is the outcome of attempt `k`
(`executeOrder`-style oracle); the second component records the backoff
sleeps performed, in order. -/
def retryWithBackoff {α : Type} (op : ℕ → Except String α) (retryCount : ℕ) :
    Except String α × List ℕ :=
  match op retryCount with
  | .ok v => (.ok v, [])
  | .error msg =>
    if h : isRateLimitMsg msg ∧ retryCount < Solana.MAX_RETRIES then
      let rest := retryWithBackoff op (retryCount + 1)
      (rest.1, Solana.INITIAL_BACKOFF * 2 ^ retryCount :: rest.2)
    else
      (.error msg, [])
termination_by Solana.MAX_RETRIES - retryCount
decreasing_by omega

/-! ### RiskManagementService (`src/unnamed/part_004`) -/

/-- `Map.delete`: remove the binding for the key. -/
def eraseA {α : Type} : List (String × α) → String → List (String × α)
  | [], _ => []
  | (k', v') :: t, k => if k' = k then t else (k', v') :: eraseA t k

structure RiskProfile where
  maxPositionSize : ℚ
  maxDailyLoss : ℚ
  maxDrawdown : ℚ
  maxOpenPositions : ℕ
  stopLossLevel : ℚ
  takeProfitLevel : ℚ
  riskPerTrade : ℚ
  leverageAllowed : Bool
  maxLeverage : ℚ
deriving DecidableEq, Repr

/-- `DEFAULT_RISK_PROFILE` set in the constructor. -/
def DEFAULT_RISK_PROFILE : RiskProfile :=
  { maxPositionSize := 5, maxDailyLoss := 3, maxDrawdown := 15,
    maxOpenPositions := 5, stopLossLevel := 2, takeProfitLevel := 5,
    riskPerTrade := 1, leverageAllowed := false, maxLeverage := 1 }

/-- The fields of `TokenMetrics` read by the risk service. -/
structure TokenMetrics where
  liquidity : ℚ
  volume24h : ℚ
  priceChange24h : ℚ
deriving DecidableEq, Repr

/-- The fields of `RiskMetrics` read by the risk service. -/
structure RiskMetrics where
  volatility : ℚ
  maxDrawdown : ℚ
  successRate : ℚ
deriving DecidableEq, Repr

structure PositionRisk where
  mint : String
  riskScore : ℚ
  maxLoss : ℚ
  exposure : ℚ
  liquidationPrice : ℚ
  recommendation : String
  warningLevel : String
deriving DecidableEq, Repr

inductive TradeType where
  | buy | sell
deriving DecidableEq, Repr

structure DailyTrade where
  amount : ℚ
  price : ℚ
  timestamp : ℕ
  ttype : TradeType
deriving DecidableEq, Repr

structure DailyStats where
  totalLoss : ℚ
  totalProfit : ℚ
  tradeCount : ℕ
  lastReset : ℕ
  trades : List (String × List DailyTrade)
deriving DecidableEq, Repr

structure RMState where
  riskProfiles : List (String × RiskProfile)
  positionRisks : List (String × PositionRisk)
  dailyStats : DailyStats
  maxDailyTrades : ℕ
deriving DecidableEq, Repr

/-- The market-analysis collaborator (`analyzeToken`,
`calculateRiskMetrics`), read-only for the risk service. -/
structure MarketOracle where
  analyzeToken : String → Option TokenMetrics
  calcRiskMetrics : String → Option RiskMetrics

/-- `calculateRiskScore`: weighted sum of position-size, liquidity, volume
and price-change components. -/
def calculateRiskScore (metrics : TokenMetrics) (amount price portfolioValue : ℚ) : ℚ :=
  let positionSize := amount * price / portfolioValue * 100
  let liquidityShare := amount * price / metrics.liquidity
  0.3 * min (positionSize / 10) 1 +
  0.3 * min (liquidityShare * 2) 1 +
  0.2 * max 0 (1 - metrics.volume24h / 1000000) +
  0.2 * min (|metrics.priceChange24h| / 50) 1

/-- `calculateVolatility`: `riskMetrics?.volatility || 1` — the JS `||`
yields 1 both when the metrics are missing and when the volatility is 0. -/
def calculateVolatility (m : MarketOracle) (mint : String) : ℚ :=
  match m.calcRiskMetrics mint with
  | none => 1
  | some r => if r.volatility = 0 then 1 else r.volatility

def calculateStopLoss (price level : ℚ) : ℚ := price * (1 - level / 100)

def calculateTakeProfit (price level : ℚ) : ℚ := price * (1 + level / 100)

/-- `evaluateTradeRisk(mint, amount, price, portfolioValue, riskProfile)`.
Returns the decision together with the (unmodified) service state. -/
def evaluateTradeRisk (st : RMState) (m : MarketOracle) (mint : String)
    (amount price portfolioValue : ℚ) (riskProfile : String) (now : ℕ) :
    TradeDecision × RMState :=
  let profile := (lookupA st.riskProfiles riskProfile).getD DEFAULT_RISK_PROFILE
  let maxAmount := portfolioValue * profile.maxPositionSize / 100
  if st.dailyStats.tradeCount ≥ st.maxDailyTrades then
    ({ approved := false, maxAmount := 0, riskScore := 1,
       warnings := ["Daily trade limit reached"], timestamp := now }, st)
  else if st.dailyStats.totalLoss > portfolioValue * profile.maxDailyLoss / 100 then
    ({ approved := false, maxAmount := 0, riskScore := 1,
       warnings := ["Daily loss limit reached"], timestamp := now }, st)
  else
    match m.analyzeToken mint with
    | none =>
      ({ approved := false, maxAmount := 0, riskScore := 1,
         warnings := ["Unable to analyze token metrics"], timestamp := now }, st)
    | some tokenMetrics =>
      let riskScore := calculateRiskScore tokenMetrics amount price portfolioValue
      let w1 : List String :=
        if amount > maxAmount then
          ["Amount exceeds maximum position size of " ++ toString maxAmount]
        else []
      let w2 : List String := if riskScore > 0.8 then ["Risk score too high"] else []
      let w3 : List String :=
        if tokenMetrics.liquidity < amount * price * 2 then ["Insufficient liquidity"] else []
      let w4 : List String :=
        if st.positionRisks.length ≥ profile.maxOpenPositions then
          ["Maximum number of open positions reached"]
        else []
      let approved :=
        !(decide (amount > maxAmount)) && !(decide (riskScore > (0.8 : ℚ))) &&
        !(decide (tokenMetrics.liquidity < amount * price * 2)) &&
        !(decide (st.positionRisks.length ≥ profile.maxOpenPositions))
      let volatility := calculateVolatility m mint
      let w5 : List String := if volatility > 0.5 then ["High volatility detected"] else []
      let finalMaxAmount := if volatility > 0.5 then maxAmount * 0.5 else maxAmount
      ({ approved := approved, maxAmount := finalMaxAmount, riskScore := riskScore,
         warnings := w1 ++ w2 ++ w3 ++ w4 ++ w5, timestamp := now,
         suggestedStopLoss := some (calculateStopLoss price profile.stopLossLevel),
         suggestedTakeProfit := some (calculateTakeProfit price profile.takeProfitLevel) }, st)

/-- `calculatePositionRisk`. -/
def calculatePositionRisk (m : MarketOracle) (mint : String)
    (_amount _price : ℚ) : ℚ :=
  match m.analyzeToken mint with
  | none => 1
  | some _ =>
    match m.calcRiskMetrics mint with
    | none => 1
    | some r =>
      r.volatility * 0.3 + r.maxDrawdown * 0.3 + (1 - r.successRate) * 0.4

def dummyTrade : DailyTrade := ⟨0, 0, 0, .buy⟩

/-- `updateDailyStats(mint)`: with fewer than two daily trades for the mint,
return early (no `tradeCount` bump); otherwise realise P&L on a buy/sell
pair and increment `tradeCount`. -/
def updateDailyStats (st : RMState) (mint : String) : RMState :=
  let trades := (lookupA st.dailyStats.trades mint).getD []
  if trades.length < 2 then st
  else
    let lastTrade := trades.getD (trades.length - 1) dummyTrade
    let previousTrade := trades.getD (trades.length - 2) dummyTrade
    let stats := st.dailyStats
    let stats1 :=
      if lastTrade.ttype = .sell ∧ previousTrade.ttype = .buy then
        let pnl := (lastTrade.price - previousTrade.price) * lastTrade.amount
        if pnl > 0 then { stats with totalProfit := stats.totalProfit + pnl }
        else { stats with totalLoss := stats.totalLoss + |pnl| }
      else stats
    { st with dailyStats := { stats1 with tradeCount := stats1.tradeCount + 1 } }

/-- `updatePosition(mint, amount, price, type)`: append the trade to the
daily ledger, set/delete the position risk, then `updateDailyStats`. -/
def updatePosition (st : RMState) (m : MarketOracle) (mint : String)
    (amount price : ℚ) (ttype : TradeType) (now : ℕ) : RMState :=
  let trades := (lookupA st.dailyStats.trades mint).getD [] ++ [⟨amount, price, now, ttype⟩]
  let st1 := { st with dailyStats :=
    { st.dailyStats with trades := setA st.dailyStats.trades mint trades } }
  let st2 :=
    if ttype = .buy then
      let pr : PositionRisk :=
        { mint := mint, riskScore := calculatePositionRisk m mint amount price,
          maxLoss := amount * price * 0.1, exposure := amount * price,
          liquidationPrice := price * 0.9, recommendation := "maintain",
          warningLevel := "low" }
      { st1 with positionRisks := setA st1.positionRisks mint pr }
    else
      { st1 with positionRisks := eraseA st1.positionRisks mint }
  updateDailyStats st2 mint

/-- Token-count bounds claimed for the bucket. -/
def TBInv (maxTokens : ℚ) (s : TBState) : Prop :=
  0 ≤ s.tokens ∧ s.tokens ≤ maxTokens

/-- A sequence of execution scans, one per listed timestamp. -/
def applyScans (exec : String → ExecutionResult) (st : OMSState)
    (times : List ℕ) : OMSState :=
  times.foldl (fun s tm => processPendingOrders exec tm s) st

/-- The public state-changing operations of `OrderManagementService`. -/
inductive OMOp where
  | create (mint : String) (side : OrderSide) (otype : OrderType) (amount : ℚ)
      (price : Option ℚ) (risk : TradeDecision) (newId : String) (now : ℕ)
  | scan (exec : String → ExecutionResult) (now : ℕ)
  | cancel (orderId : String) (now : ℕ)

def applyOMOp (st : OMSState) : OMOp → OMSState
  | .create mint side otype amount price risk newId now =>
      (createOrder st mint side otype amount price risk newId now).2
  | .scan exec now => processPendingOrders exec now st
  | .cancel orderId now => (cancelOrder st orderId now).2

/-- Side condition of an operation: `generateOrderId` produces an id not
already in the order map (time- and randomness-derived unique ids). -/
def OMOpOk (st : OMSState) : OMOp → Prop
  | .create _ _ _ _ _ _ newId _ => lookupA st.orders newId = none
  | .scan _ _ => True
  | .cancel _ _ => True

/-- Structural invariant of the service state: the pending set has no
duplicate ids and every pending id maps to a `PENDING` order. -/
def OMSInv (st : OMSState) : Prop :=
  st.pendingOrders.Nodup ∧
  ∀ id ∈ st.pendingOrders, ∃ o, lookupA st.orders id = some o ∧
    o.status = OrderStatus.PENDING

/-- Allowed status evolution of one stored order across one operation:
unchanged, or `PENDING` to a terminal state. -/
def StatusStep (o o' : Order) : Prop :=
  o'.status = o.status ∨
    (o.status = OrderStatus.PENDING ∧
      (o'.status = OrderStatus.FILLED ∨ o'.status = OrderStatus.CANCELLED ∨
       o'.status = OrderStatus.FAILED))

/-- States reachable from the freshly constructed service by the public
operations (order ids generated fresh). -/
inductive Reachable : OMSState → Prop where
  | init : Reachable OMSState.init
  | step (st : OMSState) (op : OMOp) : Reachable st → OMOpOk st op →
      Reachable (applyOMOp st op)

/-! ### Concrete witness data -/

/-- A concrete freshly created order used by witnesses. -/
def orderW : Order :=
  { id := "o1", mint := "m", side := .BUY, otype := .MARKET, amount := 10,
    price := none, status := .PENDING, createdAt := 0, updatedAt := 0,
    fills := [], remainingAmount := 10, averagePrice := 0, retryCount := 0,
    warnings := [], stopLoss := none, takeProfit := none }

/-- `orderW` after a successful execution at price 2, amount 10. -/
def orderWFilled : Order :=
  { orderW with
      status := OrderStatus.FILLED, updatedAt := 7,
      fills := [⟨2, 10, 7⟩], averagePrice := 2, remainingAmount := 0 }

/-- The order stored by the witness `createOrder` call. -/
def orderC : Order :=
  { id := "o1", mint := "m", side := .BUY, otype := .MARKET, amount := 1,
    price := none, status := .PENDING, createdAt := 0, updatedAt := 0,
    fills := [], remainingAmount := 1, averagePrice := 0, retryCount := 0,
    warnings := [], stopLoss := none, takeProfit := none }

def orderCCancelled : Order :=
  { orderC with status := OrderStatus.CANCELLED, updatedAt := 3 }

def createOpC : OMOp :=
  OMOp.create "m" .BUY .MARKET 1 none ⟨true, 50, 0, [], 0, none, none⟩ "o1" 0

/-! ### Association-list lemmas -/

theorem lookupA_setA_self {α : Type} (l : List (String × α)) (k : String) (v : α) :
    lookupA (setA l k v) k = some v := by
  induction l with
  | nil => simp [setA, lookupA]
  | cons p t ih =>
    obtain ⟨k', v'⟩ := p
    by_cases h : k' = k
    · simp [setA, lookupA, h]
    · simp [setA, lookupA, h, ih]

theorem lookupA_setA_ne {α : Type} (l : List (String × α)) (k k' : String) (v : α)
    (h : k' ≠ k) : lookupA (setA l k v) k' = lookupA l k' := by
  induction l with
  | nil => simp [setA, lookupA, Ne.symm h]
  | cons p t ih =>
    obtain ⟨k₀, v₀⟩ := p
    by_cases h₀ : k₀ = k
    · subst h₀
      simp [setA, lookupA, Ne.symm h]
    · simp only [setA, if_neg h₀, lookupA]
      by_cases h₁ : k₀ = k'
      · simp [h₁]
      · simp [h₁, ih]

theorem updateDailyStats_trades (st : RMState) (mint : String) :
    (updateDailyStats st mint).dailyStats.trades = st.dailyStats.trades := by
  unfold updateDailyStats
  dsimp only
  split
  · rfl
  · split
    · split <;> rfl
    · rfl

theorem updateDailyStats_tradeCount (st : RMState) (mint : String) :
    (updateDailyStats st mint).dailyStats.tradeCount =
      (if 2 ≤ ((lookupA st.dailyStats.trades mint).getD []).length
       then st.dailyStats.tradeCount + 1
       else st.dailyStats.tradeCount) := by
  unfold updateDailyStats
  dsimp only
  split
  · next hlt => rw [if_neg]; omega
  · next hge =>
    have h2 : 2 ≤ ((lookupA st.dailyStats.trades mint).getD []).length := by omega
    rw [if_pos h2]
    split
    · split <;> rfl
    · rfl

theorem updatePosition_pre_trades (st : RMState) (m : MarketOracle)
    (mint : String) (amount price : ℚ) (ttype : TradeType) (now : ℕ) :
    (updatePosition st m mint amount price ttype now).dailyStats.trades =
      setA st.dailyStats.trades mint
        ((lookupA st.dailyStats.trades mint).getD [] ++ [⟨amount, price, now, ttype⟩]) := by
  unfold updatePosition
  cases ttype <;> simp [updateDailyStats_trades]

/-- C10: after `updatePosition` records a trade for `mint`,
`dailyStats.tradeCount` is incremented exactly when the mint's daily ledger
then holds at least two trades (so the first recorded trade for a mint never
increments it). -/
theorem updatePosition_tradeCount_iff (st : RMState) (m : MarketOracle)
    (mint : String) (amount price : ℚ) (ttype : TradeType) (now : ℕ) :
    (updatePosition st m mint amount price ttype now).dailyStats.tradeCount =
      (if 2 ≤ ((lookupA (updatePosition st m mint amount price ttype now).dailyStats.trades
                  mint).getD []).length
       then st.dailyStats.tradeCount + 1
       else st.dailyStats.tradeCount) := by
  rw [updatePosition_pre_trades, lookupA_setA_self]
  unfold updatePosition
  cases ttype <;>
  · rw [updateDailyStats_tradeCount]
    simp [lookupA_setA_self]

theorem strAppend_assoc (a b c : String) : a ++ b ++ c = a ++ (b ++ c) := by
  obtain ⟨da⟩ := a
  obtain ⟨db⟩ := b
  obtain ⟨dc⟩ := c
  show String.mk (da ++ db ++ dc) = String.mk (da ++ (db ++ dc))
  rw [List.append_assoc]

/-- C9: whenever `createOrder` does not create an order (pending set full,
risk check not approved), it returns `null` and leaves the order map and
the pending set exactly as they were. -/
theorem createOrder_none_state_unchanged (st : OMSState) (mint : String)
    (side : OrderSide) (otype : OrderType) (amount : ℚ) (price : Option ℚ)
    (risk : TradeDecision) (newId : String) (now : ℕ)
    (h : (createOrder st mint side otype amount price risk newId now).1 = none) :
    (createOrder st mint side otype amount price risk newId now).2 = st := by
  unfold createOrder at h ⊢
  split
  · rfl
  · next hc1 =>
    split
    · rfl
    · next hc2 =>
      rw [if_neg hc1, if_neg hc2] at h
      exact absurd h (by simp)

/-- C9 witness: a call rejected by the risk gate returns `null` with the
state untouched. -/
theorem createOrder_none_state_unchanged_witness :
    (createOrder OMSState.init "mintA" .BUY .MARKET 1 none
        ⟨false, 0, 1, ["Risk score too high"], 0, none, none⟩ "order_1" 0).2 =
      OMSState.init :=
  createOrder_none_state_unchanged OMSState.init "mintA" .BUY .MARKET 1 none
    ⟨false, 0, 1, ["Risk score too high"], 0, none, none⟩ "order_1" 0 (by decide)

/-- `evaluateTradeRisk` returns the service state unchanged. -/
theorem evaluateTradeRisk_state (st : RMState) (m : MarketOracle) (mint : String)
    (amount price portfolioValue : ℚ) (profileName : String) (now : ℕ) :
    (evaluateTradeRisk st m mint amount price portfolioValue profileName now).2 = st := by
  unfold evaluateTradeRisk
  dsimp only
  split
  · rfl
  · split
    · rfl
    · split <;> rfl

/-- C7: when the requested `amount` exceeds `maxPositionSize`% of
`portfolioValue` and the evaluation reaches the risk checks (daily ceilings
not hit, token metrics available), the decision is not approved and carries
a warning containing "maximum position size". -/
theorem evaluateTradeRisk_position_size_reject (st : RMState) (m : MarketOracle)
    (mint : String) (amount price portfolioValue : ℚ) (profileName : String)
    (now : ℕ) (metrics : TokenMetrics)
    (hcount : st.dailyStats.tradeCount < st.maxDailyTrades)
    (hloss : st.dailyStats.totalLoss ≤
      portfolioValue * ((lookupA st.riskProfiles profileName).getD
        DEFAULT_RISK_PROFILE).maxDailyLoss / 100)
    (hm : m.analyzeToken mint = some metrics)
    (hamt : portfolioValue * ((lookupA st.riskProfiles profileName).getD
        DEFAULT_RISK_PROFILE).maxPositionSize / 100 < amount) :
    (evaluateTradeRisk st m mint amount price portfolioValue profileName now).1.approved
        = false ∧
      ∃ w ∈ (evaluateTradeRisk st m mint amount price portfolioValue
                profileName now).1.warnings,
        ∃ pre post, w = pre ++ "maximum position size" ++ post := by
  unfold evaluateTradeRisk
  rw [if_neg (by omega), if_neg (by exact not_lt.mpr hloss), hm]
  dsimp only
  constructor
  · simp [hamt]
  · refine ⟨"Amount exceeds maximum position size of " ++
      toString (portfolioValue * ((lookupA st.riskProfiles profileName).getD
        DEFAULT_RISK_PROFILE).maxPositionSize / 100), ?_, ?_⟩
    · rw [if_pos hamt]
      simp
    · refine ⟨"Amount exceeds ", " of " ++
        toString (portfolioValue * ((lookupA st.riskProfiles profileName).getD
          DEFAULT_RISK_PROFILE).maxPositionSize / 100), ?_⟩
      rw [strAppend_assoc, ← strAppend_assoc "Amount exceeds "]
      rfl

/-- C7 witness: the spec scenario — amount 100 against `maxPositionSize = 5`%
of portfolio 1000 (max 50) is rejected with the position-size warning. -/
theorem evaluateTradeRisk_position_size_reject_witness :
    (evaluateTradeRisk ⟨[], [], ⟨0, 0, 0, 0, []⟩, 50⟩
        ⟨fun _ => some ⟨1000000, 1000000, 0⟩, fun _ => none⟩
        "MINT" 100 1 1000 "default" 0).1.approved = false ∧
      ∃ w ∈ (evaluateTradeRisk ⟨[], [], ⟨0, 0, 0, 0, []⟩, 50⟩
          ⟨fun _ => some ⟨1000000, 1000000, 0⟩, fun _ => none⟩
          "MINT" 100 1 1000 "default" 0).1.warnings,
        ∃ pre post, w = pre ++ "maximum position size" ++ post :=
  evaluateTradeRisk_position_size_reject ⟨[], [], ⟨0, 0, 0, 0, []⟩, 50⟩
    ⟨fun _ => some ⟨1000000, 1000000, 0⟩, fun _ => none⟩
    "MINT" 100 1 1000 "default" 0 ⟨1000000, 1000000, 0⟩
    (by decide)
    (by norm_num [lookupA, DEFAULT_RISK_PROFILE])
    rfl
    (by norm_num [lookupA, DEFAULT_RISK_PROFILE])

/-- C8: two `evaluateTradeRisk` calls with identical arguments and no
intervening state change (the first call hands its state to the second)
agree on `approved` and `riskScore`. -/
theorem evaluateTradeRisk_deterministic (st : RMState) (m : MarketOracle)
    (mint : String) (amount price portfolioValue : ℚ) (profileName : String)
    (t1 t2 : ℕ) :
    (evaluateTradeRisk (evaluateTradeRisk st m mint amount price portfolioValue
          profileName t1).2 m mint amount price portfolioValue
        profileName t2).1.approved =
      (evaluateTradeRisk st m mint amount price portfolioValue
        profileName t1).1.approved ∧
    (evaluateTradeRisk (evaluateTradeRisk st m mint amount price portfolioValue
          profileName t1).2 m mint amount price portfolioValue
        profileName t2).1.riskScore =
      (evaluateTradeRisk st m mint amount price portfolioValue
        profileName t1).1.riskScore := by
  rw [evaluateTradeRisk_state]
  unfold evaluateTradeRisk
  dsimp only
  split
  · exact ⟨rfl, rfl⟩
  · split
    · exact ⟨rfl, rfl⟩
    · split <;> exact ⟨rfl, rfl⟩

theorem retryWithBackoff_spec_aux {α : Type} (op : ℕ → Except String α) :
    ∀ n rc, Solana.MAX_RETRIES - rc ≤ n →
    ((retryWithBackoff op rc).2.length ≤ Solana.MAX_RETRIES - rc ∧
     (∀ i (h : i < (retryWithBackoff op rc).2.length),
        (retryWithBackoff op rc).2.get ⟨i, h⟩ = Solana.INITIAL_BACKOFF * 2 ^ (rc + i) ∧
        ∃ m, op (rc + i) = .error m ∧ isRateLimitMsg m = true) ∧
     (∀ m, (retryWithBackoff op rc).1 = .error m →
        op (rc + (retryWithBackoff op rc).2.length) = .error m) ∧
     (∀ m, op rc = .error m → isRateLimitMsg m = false →
        retryWithBackoff op rc = (.error m, []))) := by
  intro n
  induction n with
  | zero =>
    intro rc hrc
    cases hop : op rc with
    | ok v =>
      have hstep : retryWithBackoff op rc = (.ok v, []) := by
        rw [retryWithBackoff]
        simp only [hop]
      rw [hstep]
      refine ⟨by simp, by simp, by simp, ?_⟩
      intro m hm
      exact absurd hm (by simp)
    | error msg =>
      have hguard : ¬ (isRateLimitMsg msg ∧ rc < Solana.MAX_RETRIES) := by
        rintro ⟨-, hlt⟩; omega
      have hstep : retryWithBackoff op rc = (.error msg, []) := by
        rw [retryWithBackoff]
        simp only [hop]
        rw [dif_neg hguard]
      rw [hstep]
      refine ⟨by simp, by simp, ?_, ?_⟩
      · intro m hm
        simp only at hm
        cases hm
        simpa using hop
      · intro m hm hrl
        cases hm
        rfl
  | succ n ih =>
    intro rc hrc
    cases hop : op rc with
    | ok v =>
      have hstep : retryWithBackoff op rc = (.ok v, []) := by
        rw [retryWithBackoff]
        simp only [hop]
      rw [hstep]
      refine ⟨by simp, by simp, by simp, ?_⟩
      intro m hm
      exact absurd hm (by simp)
    | error msg =>
      by_cases hguard : isRateLimitMsg msg ∧ rc < Solana.MAX_RETRIES
      · have hstep : retryWithBackoff op rc =
            ((retryWithBackoff op (rc + 1)).1,
              Solana.INITIAL_BACKOFF * 2 ^ rc :: (retryWithBackoff op (rc + 1)).2) := by
          rw [retryWithBackoff]
          simp only [hop]
          rw [dif_pos hguard]
        obtain ⟨hlen, hget, hsurf, -⟩ := ih (rc + 1) (by omega)
        rw [hstep]
        refine ⟨?_, ?_, ?_, ?_⟩
        · simp only [List.length_cons]
          omega
        · intro i hi
          cases i with
          | zero =>
            exact ⟨by simp, msg, by simpa using hop, hguard.1⟩
          | succ j =>
            have hj : j < (retryWithBackoff op (rc + 1)).2.length := by
              simpa using hi
            obtain ⟨hval, m, hm, hrl⟩ := hget j hj
            have harith : rc + 1 + j = rc + (j + 1) := by omega
            refine ⟨?_, m, ?_, hrl⟩
            · show (retryWithBackoff op (rc + 1)).2.get ⟨j, hj⟩ = _
              rw [hval, harith]
            · rw [← harith]
              exact hm
        · intro m hm
          have hsm := hsurf m hm
          have heq : rc + 1 + (retryWithBackoff op (rc + 1)).2.length =
              rc + ((retryWithBackoff op (rc + 1)).2.length + 1) := by omega
          rw [heq] at hsm
          simpa using hsm
        · intro m hm hrl
          cases hm
          exact absurd hguard.1 (by simp [hrl])
      · have hstep : retryWithBackoff op rc = (.error msg, []) := by
          rw [retryWithBackoff]
          simp only [hop]
          rw [dif_neg hguard]
        rw [hstep]
        refine ⟨by simp, by simp, ?_, ?_⟩
        · intro m hm
          simp only at hm
          cases hm
          simpa using hop
        · intro m hm hrl
          cases hm
          rfl

/-- C6: `retryWithBackoff` performs at most `MAX_RETRIES` retries, each
retry `i` is preceded by a sleep of `INITIAL_BACKOFF · 2^i` and caused by a
rate-limit error on attempt `i`, a surfaced error is the outcome of the
attempt after the last retry, and a non-rate-limit error propagates
immediately with no retry. -/
theorem retryWithBackoff_policy {α : Type} (op : ℕ → Except String α) :
    (retryWithBackoff op 0).2.length ≤ Solana.MAX_RETRIES ∧
    (∀ i (h : i < (retryWithBackoff op 0).2.length),
      (retryWithBackoff op 0).2.get ⟨i, h⟩ = Solana.INITIAL_BACKOFF * 2 ^ i ∧
      ∃ m, op i = .error m ∧ isRateLimitMsg m = true) ∧
    (∀ m, (retryWithBackoff op 0).1 = .error m →
      op (retryWithBackoff op 0).2.length = .error m) ∧
    (∀ m, op 0 = .error m → isRateLimitMsg m = false →
      retryWithBackoff op 0 = (.error m, [])) := by
  have h := retryWithBackoff_spec_aux op Solana.MAX_RETRIES 0 (by omega)
  simpa using h

/-- C6 witness: a non-rate-limit failure is surfaced at once, with no
backoff sleeps. -/
theorem retryWithBackoff_policy_witness :
    retryWithBackoff (fun _ => (Except.error "Not implemented" : Except String ℕ)) 0 =
      (Except.error "Not implemented", []) :=
  (retryWithBackoff_policy (fun _ => (Except.error "Not implemented" : Except String ℕ))).2.2.2
    "Not implemented" rfl (by decide)

/-- Derived-field invariant of the fill accounting: `averagePrice` is the
volume-weighted fill price (`0/0 = 0` for the empty fill list, matching the
initial `averagePrice = 0`), `remainingAmount` is the clamped residual. -/
def fillInvariant (o : Order) : Prop :=
  o.averagePrice = fillsWeightedSum o.fills / fillsTotalAmount o.fills ∧
  o.remainingAmount = max 0 (o.amount - fillsTotalAmount o.fills)

/-- A sequence of `updateOrderStatus` calls
`(orderId, status, result?, now)`. -/
def applyUpdates (st : OMSState)
    (evs : List (String × OrderStatus × Option ExecutionResult × ℕ)) : OMSState :=
  evs.foldl (fun s e => updateOrderStatus s e.1 e.2.1 e.2.2.1 e.2.2.2) st

theorem updateOrderStatus_fillInvariant (st : OMSState) (orderId : String)
    (status : OrderStatus) (result : Option ExecutionResult) (now : ℕ)
    (hst : ∀ id o, lookupA st.orders id = some o → fillInvariant o) :
    ∀ id o, lookupA (updateOrderStatus st orderId status result now).orders id = some o →
      fillInvariant o := by
  intro id o h
  unfold updateOrderStatus at h
  cases hl : lookupA st.orders orderId with
  | none =>
    rw [hl] at h
    exact hst _ _ h
  | some order =>
    rw [hl] at h
    dsimp only at h
    by_cases hid : id = orderId
    · subst hid
      rw [lookupA_setA_self] at h
      have horder := hst _ _ hl
      cases h
      cases result with
      | none => exact ⟨horder.1, horder.2⟩
      | some r =>
        by_cases hs : r.success = true
        · simp only [hs, if_true]
          exact ⟨rfl, rfl⟩
        · simp only [eq_false_of_ne_true hs, Bool.false_eq_true, if_false]
          exact ⟨horder.1, horder.2⟩
    · rw [lookupA_setA_ne _ _ _ _ hid] at h
      exact hst _ _ h

/-- C3: after any sequence of `updateOrderStatus` calls (each successful one
recording a fill), every stored order's `averagePrice` equals
`Σ(fill.price·fill.amount)/Σ(fill.amount)` and its `remainingAmount` equals
`max 0 (amount − Σ fill.amount)`, provided every order satisfied this before
(as freshly created orders do). -/
theorem applyUpdates_fillInvariant
    (evs : List (String × OrderStatus × Option ExecutionResult × ℕ)) :
    ∀ st : OMSState, (∀ id o, lookupA st.orders id = some o → fillInvariant o) →
    ∀ id o, lookupA (applyUpdates st evs).orders id = some o → fillInvariant o := by
  induction evs with
  | nil => intro st hst id o h; exact hst _ _ h
  | cons e rest ih =>
    intro st hst id o h
    exact ih (updateOrderStatus st e.1 e.2.1 e.2.2.1 e.2.2.2)
      (updateOrderStatus_fillInvariant st e.1 e.2.1 e.2.2.1 e.2.2.2 hst) id o h





/-- C3 witness: one successful execution (price 2, amount 10) recorded
against a fresh order of amount 10 yields `averagePrice = 2` and
`remainingAmount = 0`, satisfying the derived-field invariant. -/
theorem applyUpdates_fillInvariant_witness :
    fillInvariant orderWFilled :=
  applyUpdates_fillInvariant [("o1", .FILLED, some ⟨true, 2, 10, 7, none⟩, 7)]
    ⟨[("o1", orderW)], ["o1"]⟩
    (by
      intro id o h
      by_cases hid : ("o1" : String) = id
      · simp only [lookupA, if_pos hid] at h
        cases h
        constructor <;> norm_num [orderW, fillsWeightedSum, fillsTotalAmount]
      · simp only [lookupA, if_neg hid] at h
        cases h)
    "o1" _
    (by norm_num [applyUpdates, updateOrderStatus, lookupA, setA, orderW, orderWFilled,
      fillsWeightedSum, fillsTotalAmount, delS, Order.mk.injEq])

/-! ### Token-bucket lemmas -/

theorem TBState.refill_inv (maxTokens rate : ℚ) (hmax : 0 ≤ maxTokens)
    (s : TBState) (now : ℕ) (h : TBInv maxTokens s) :
    TBInv maxTokens (s.refill maxTokens rate now) := by
  unfold TBState.refill
  dsimp only
  split
  · next hpos =>
    refine ⟨le_min hmax (add_nonneg h.1 ?_), min_le_left _ _⟩
    exact_mod_cast le_of_lt hpos
  · exact h

theorem TBState.refill_lastRefill_le (maxTokens rate : ℚ) (s : TBState)
    (now : ℕ) (h : s.lastRefill ≤ now) :
    (s.refill maxTokens rate now).lastRefill ≤ now := by
  unfold TBState.refill
  dsimp only
  split
  · exact le_refl now
  · exact h

theorem tbWaitTime_mul_rate (rate : ℚ) (hrate : 0 < rate) :
    1000 ≤ (tbWaitTime rate : ℚ) * rate := by
  unfold tbWaitTime
  have hdiv : (0 : ℚ) < 1000 / rate := div_pos (by norm_num) hrate
  have hceil : (0 : ℤ) ≤ ⌈(1000 : ℚ) / rate⌉ := Int.ceil_nonneg (le_of_lt hdiv)
  have hcast : ((⌈(1000 : ℚ) / rate⌉.toNat : ℕ) : ℚ) = ((⌈(1000 : ℚ) / rate⌉ : ℤ) : ℚ) := by
    exact_mod_cast congrArg Int.cast (Int.toNat_of_nonneg hceil)
  rw [hcast]
  have hle : (1000 : ℚ) / rate ≤ ((⌈(1000 : ℚ) / rate⌉ : ℤ) : ℚ) := Int.le_ceil _
  calc (1000 : ℚ) = 1000 / rate * rate := by field_simp
    _ ≤ ((⌈(1000 : ℚ) / rate⌉ : ℤ) : ℚ) * rate :=
        mul_le_mul_of_nonneg_right hle (le_of_lt hrate)

theorem TBState.refill_ge_one (maxTokens rate : ℚ) (hmax : 1 ≤ maxTokens)
    (hrate : 0 < rate) (s : TBState) (now : ℕ) (htok : 0 ≤ s.tokens)
    (hlag : s.lastRefill + tbWaitTime rate ≤ now) :
    1 ≤ (s.refill maxTokens rate now).tokens := by
  have hsub : tbWaitTime rate ≤ now - s.lastRefill := by omega
  have hq : (1 : ℚ) ≤ ((now - s.lastRefill : ℕ) : ℚ) * rate / 1000 := by
    have h1 : (tbWaitTime rate : ℚ) ≤ ((now - s.lastRefill : ℕ) : ℚ) := by
      exact_mod_cast hsub
    have h2 : (1000 : ℚ) ≤ ((now - s.lastRefill : ℕ) : ℚ) * rate :=
      le_trans (tbWaitTime_mul_rate rate hrate)
        (mul_le_mul_of_nonneg_right h1 (le_of_lt hrate))
    rw [le_div_iff₀ (by norm_num : (0 : ℚ) < 1000)]
    linarith
  have hfloor : (1 : ℤ) ≤ ⌊((now - s.lastRefill : ℕ) : ℚ) * rate / 1000⌋ :=
    Int.le_floor.mpr (by exact_mod_cast hq)
  unfold TBState.refill
  dsimp only
  rw [if_pos (by omega)]
  refine le_min hmax ?_
  have : (1 : ℚ) ≤ ((⌊((now - s.lastRefill : ℕ) : ℚ) * rate / 1000⌋ : ℤ) : ℚ) := by
    exact_mod_cast hfloor
  linarith

theorem TBState.waitForToken_inv (maxTokens rate : ℚ) (hmax : 1 ≤ maxTokens)
    (hrate : 0 < rate) (s : TBState) (t1 t2 : ℕ) (hinv : TBInv maxTokens s)
    (hl1 : s.lastRefill ≤ t1) (ht : t1 + tbWaitTime rate ≤ t2) :
    TBInv maxTokens (s.waitForToken maxTokens rate t1 t2) ∧
      (s.waitForToken maxTokens rate t1 t2).lastRefill ≤ t2 := by
  have hmax0 : (0 : ℚ) ≤ maxTokens := le_trans (by norm_num) hmax
  have hinv1 : TBInv maxTokens (s.refill maxTokens rate t1) :=
    TBState.refill_inv maxTokens rate hmax0 s t1 hinv
  have hlr1 : (s.refill maxTokens rate t1).lastRefill ≤ t1 :=
    TBState.refill_lastRefill_le maxTokens rate s t1 hl1
  unfold TBState.waitForToken
  dsimp only
  split
  · next hlow =>
    have hlag : (s.refill maxTokens rate t1).lastRefill + tbWaitTime rate ≤ t2 := by
      omega
    have hge1 : 1 ≤ ((s.refill maxTokens rate t1).refill maxTokens rate t2).tokens :=
      TBState.refill_ge_one maxTokens rate hmax hrate _ t2 hinv1.1 hlag
    have hinv2 : TBInv maxTokens ((s.refill maxTokens rate t1).refill maxTokens rate t2) :=
      TBState.refill_inv maxTokens rate hmax0 _ t2 hinv1
    have hlr2 : ((s.refill maxTokens rate t1).refill maxTokens rate t2).lastRefill ≤ t2 :=
      TBState.refill_lastRefill_le maxTokens rate _ t2 (by omega)
    refine ⟨⟨?_, ?_⟩, ?_⟩ <;> dsimp only
    · linarith
    · linarith [hinv2.2]
    · exact hlr2
  · next hhigh =>
    push_neg at hhigh
    refine ⟨⟨?_, ?_⟩, ?_⟩ <;> dsimp only
    · linarith
    · linarith [hinv1.2]
    · omega

theorem TBState.tryConsume_inv (maxTokens rate : ℚ) (hmax : 0 ≤ maxTokens)
    (s : TBState) (n : ℚ) (t : ℕ) (hn : 0 ≤ n) (hinv : TBInv maxTokens s)
    (hl : s.lastRefill ≤ t) :
    TBInv maxTokens (s.tryConsume maxTokens rate n t).2 ∧
      (s.tryConsume maxTokens rate n t).2.lastRefill ≤ t := by
  have hinv1 : TBInv maxTokens (s.refill maxTokens rate t) :=
    TBState.refill_inv maxTokens rate hmax s t hinv
  have hlr1 : (s.refill maxTokens rate t).lastRefill ≤ t :=
    TBState.refill_lastRefill_le maxTokens rate s t hl
  unfold TBState.tryConsume
  dsimp only
  split
  · next hge =>
    refine ⟨⟨?_, ?_⟩, ?_⟩ <;> dsimp only
    · linarith [hinv1.1]
    · linarith [hinv1.2]
    · exact hlr1
  · exact ⟨hinv1, hlr1⟩

/-- Invariant preservation along an admissible trace of bucket calls. -/
theorem TBState.run_inv (maxTokens rate : ℚ) (hmax : 1 ≤ maxTokens)
    (hrate : 0 < rate) (ops : List TBOp) :
    ∀ (s : TBState) (prev : ℕ), TBInv maxTokens s → s.lastRefill ≤ prev →
      TBTraceOk rate prev ops →
      TBInv maxTokens (s.run maxTokens rate ops) := by
  have hmax0 : (0 : ℚ) ≤ maxTokens := le_trans (by norm_num) hmax
  induction ops with
  | nil => intro s prev hinv _ _; exact hinv
  | cons op rest ih =>
    intro s prev hinv hlr hok
    obtain ⟨hop, hrest⟩ := hok
    cases op with
    | wait t1 t2 =>
      obtain ⟨h1, h2⟩ := hop
      have hstep := TBState.waitForToken_inv maxTokens rate hmax hrate s t1 t2
        hinv (by omega) h2
      exact ih _ t2 hstep.1 hstep.2 hrest
    | tryC n t =>
      obtain ⟨h1, h2⟩ := hop
      have hstep := TBState.tryConsume_inv maxTokens rate hmax0 s n t h2 hinv (by omega)
      exact ih _ t hstep.1 hstep.2 hrest
    | reset t =>
      exact ih _ t ⟨hmax0, le_refl _⟩ (le_refl _) hrest

/-- C5 counterexample: `tryConsume` does not validate its argument, so a
single `tryConsume(-1)` call on a fresh bucket (maxTokens = 5, rate = 1)
drives the token count to 6 > maxTokens, refuting the claimed bound for
arbitrary call sequences. -/
theorem tryConsume_negative_counterexample :
    5 < ((TBState.init 5 0).tryConsume 5 1 (-1) 0).2.tokens := by
  norm_num [TBState.init, TBState.tryConsume, TBState.refill]

/-- C5 (amended): for a bucket with `maxTokens ≥ 1` and `refillRate > 0`,
along any real-time-admissible trace of `waitForToken`, `tryConsume` /
`consume` (a `consume` call is a loop of `tryConsume` steps) and `reset`
calls whose requested amounts are non-negative, the token count stays within
`[0, maxTokens]`. -/
theorem tokenBucket_bounds (maxTokens rate : ℚ) (hmax : 1 ≤ maxTokens)
    (hrate : 0 < rate) (t0 : ℕ) (ops : List TBOp)
    (hok : TBTraceOk rate t0 ops) :
    0 ≤ ((TBState.init maxTokens t0).run maxTokens rate ops).tokens ∧
      ((TBState.init maxTokens t0).run maxTokens rate ops).tokens ≤ maxTokens :=
  TBState.run_inv maxTokens rate hmax hrate ops (TBState.init maxTokens t0) t0
    ⟨le_trans (by norm_num) hmax, le_refl maxTokens⟩ (le_refl t0) hok

/-- C5 witness: a concrete admissible trace (consume one token, then reset)
on a bucket of capacity 2 stays within bounds. -/
theorem tokenBucket_bounds_witness :
    0 ≤ ((TBState.init 2 0).run 2 1 [TBOp.tryC 1 0, TBOp.reset 5]).tokens ∧
      ((TBState.init 2 0).run 2 1 [TBOp.tryC 1 0, TBOp.reset 5]).tokens ≤ 2 :=
  tokenBucket_bounds 2 1 (by norm_num) (by norm_num) 0
    [TBOp.tryC 1 0, TBOp.reset 5]
    (by norm_num [TBTraceOk, TBOpOk, TBOp.endTime])

/-! ### Sliding-window lemmas -/

/-- Pruning an already-pruned timestamp list at a later time equals pruning
the original list at that later time: the state rewrites performed by
`waitForSlot` on its sleep-and-retry path do not change the semantics, so an
execution is faithfully described by its sequence of admitted grants. -/
theorem swPrune_swPrune (W : ℕ) (ts : List ℕ) (u v : ℕ) (huv : u ≤ v) :
    swPrune W (swPrune W ts u) v = swPrune W ts v := by
  unfold swPrune
  rw [List.filter_filter]
  apply List.filter_congr
  intro t _
  by_cases hv : v - t < W
  · have hu : u - t < W := by omega
    simp [hv, hu]
  · simp [hv]

theorem swPrune_append_self (W : ℕ) (hW : 0 < W) (granted : List ℕ) (t : ℕ) :
    swPrune W (granted ++ [t]) t = swPrune W granted t ++ [t] := by
  unfold swPrune
  rw [List.filter_append]
  congr 1
  simp [hW]

theorem grantsInWindow_append (W : ℕ) (l₁ l₂ : List ℕ) (T : ℕ) :
    grantsInWindow W (l₁ ++ l₂) T = grantsInWindow W l₁ T + grantsInWindow W l₂ T := by
  unfold grantsInWindow
  exact List.countP_append _ _ _

theorem swRun_count_aux (C W : ℕ) (hW : 0 < W) :
    ∀ (times granted : List ℕ) (lastT : ℕ) (final : List ℕ),
      List.Sorted (· ≤ ·) times →
      (∀ g ∈ granted, g ≤ lastT) →
      (∀ t ∈ times, lastT ≤ t) →
      (∀ T, grantsInWindow W granted T ≤ C) →
      swRun C W (swPrune W granted lastT) times = some final →
      ∀ T, grantsInWindow W (granted ++ times) T ≤ C := by
  intro times
  induction times with
  | nil =>
    intro granted lastT final _ _ _ hbound _ T
    simpa using hbound T
  | cons t rest ih =>
    intro granted lastT final hsort hg hts hbound hrun T
    rw [List.sorted_cons] at hsort
    have hlt : lastT ≤ t := hts t (by simp)
    have hglet : ∀ g ∈ granted, g ≤ t := fun g hg0 => le_trans (hg g hg0) hlt
    unfold swRun swGrant at hrun
    rw [swPrune_swPrune W granted lastT t hlt] at hrun
    dsimp only at hrun
    split at hrun
    · exact absurd hrun (by simp)
    · next ts' hcap =>
      split at hcap
      · exact absurd hcap (by simp)
      next hlen =>
      have hts' : swPrune W granted t ++ [t] = ts' := Option.some.inj hcap
      -- the state after the grant is the prune of the extended grant history
      rw [← hts', ← swPrune_append_self W hW granted t] at hrun
      -- capacity bound for the extended history
      have hbound1 : ∀ T1, grantsInWindow W (granted ++ [t]) T1 ≤ C := by
        intro T1
        by_cases hT1 : t ≤ T1
        · have hmono : grantsInWindow W (granted ++ [t]) T1 ≤
              grantsInWindow W (granted ++ [t]) t := by
            unfold grantsInWindow
            apply List.countP_mono_left
            intro g hgmem
            have hgle : g ≤ t := by
              rcases List.mem_append.mp hgmem with h | h
              · exact hglet g h
              · simp at h; omega
            intro hp
            simp only [Bool.and_eq_true, decide_eq_true_eq] at hp ⊢
            exact ⟨hgle, by omega⟩
          have hat : grantsInWindow W (granted ++ [t]) t =
              (swPrune W granted t).length + 1 := by
            rw [grantsInWindow_append]
            have h1 : grantsInWindow W granted t = (swPrune W granted t).length := by
              unfold grantsInWindow swPrune
              rw [List.countP_eq_length_filter]
              congr 1
              apply List.filter_congr
              intro g hgmem
              simp [hglet g hgmem]
            have h2 : grantsInWindow W [t] t = 1 := by
              unfold grantsInWindow
              simp [hW]
            omega
          omega
        · have hzero : grantsInWindow W [t] T1 = 0 := by
            unfold grantsInWindow
            simp
            omega
          rw [grantsInWindow_append, hzero]
          simpa using hbound T1
      have hfin := ih (granted ++ [t]) t final hsort.2
        (by
          intro g hgmem
          rcases List.mem_append.mp hgmem with h | h
          · exact hglet g h
          · simp at h; omega)
        (fun r hr => hsort.1 r hr)
        hbound1 hrun
      have : granted ++ t :: rest = (granted ++ [t]) ++ rest := by simp
      rw [this]
      exact hfin T

/-- C4: along any chronologically ordered sequence of granted `waitForSlot`
calls (capacity `C`, window `W`), no trailing `W`-millisecond window ever
contains more than `C` grants. -/
theorem slidingWindow_capacity (C W : ℕ) (times final : List ℕ)
    (hsort : List.Sorted (· ≤ ·) times)
    (hrun : swRun C W [] times = some final) :
    ∀ T, grantsInWindow W times T ≤ C := by
  intro T
  rcases Nat.eq_zero_or_pos W with hW | hW
  · subst hW
    unfold grantsInWindow
    simp
  · have h := swRun_count_aux C W hW times [] 0 final hsort
      (by simp) (by simp) (by intro T1; simp [grantsInWindow])
      (by simpa [swPrune] using hrun) T
    simpa using h

/-- C4 witness: the spec scenario — capacity 2, window 1000 ms, grants at
t = 0, 0 admitted and a third grant admitted only at t = 1000; no trailing
1000 ms window holds more than 2 grants (checked at T = 500). -/
theorem slidingWindow_capacity_witness :
    grantsInWindow 1000 [0, 0, 1000] 500 ≤ 2 :=
  slidingWindow_capacity 2 1000 [0, 0, 1000] [1000]
    (by norm_num) (by norm_num [swRun, swGrant, swPrune]) 500

/-! ### Retry-cap lemmas (single pending order, always-failing execution) -/

theorem scan_fail_retry (f : String → ExecutionResult) (now : ℕ) (oid : String)
    (ord : Order) (hfail : (f oid).success = false)
    (hrc : ord.retryCount < MAX_RETRIES) :
    processPendingOrders f now ⟨[(oid, ord)], [oid]⟩ =
      ⟨[(oid, { ord with
          retryCount := ord.retryCount + 1,
          warnings := ord.warnings ++ [(f oid).error.getD "Unknown execution error"] })],
        [oid]⟩ := by
  have hnot : ¬ (ord.retryCount ≥ MAX_RETRIES) := by omega
  have hlook : lookupA [(oid, ord)] oid = some ord := by simp [lookupA]
  show processOrderStep f now ⟨[(oid, ord)], [oid]⟩ oid = _
  unfold processOrderStep
  rw [hlook]
  dsimp only
  rw [hfail]
  simp only [Bool.false_eq_true, if_false]
  rw [if_neg hnot]
  simp [setA]

theorem scan_fail_final (f : String → ExecutionResult) (now : ℕ) (oid : String)
    (ord : Order) (hfail : (f oid).success = false)
    (hrc : ord.retryCount ≥ MAX_RETRIES) :
    processPendingOrders f now ⟨[(oid, ord)], [oid]⟩ =
      ⟨[(oid, { ord with status := OrderStatus.FAILED, updatedAt := now })], []⟩ := by
  have hlook : lookupA [(oid, ord)] oid = some ord := by simp [lookupA]
  show processOrderStep f now ⟨[(oid, ord)], [oid]⟩ oid = _
  unfold processOrderStep
  rw [hlook]
  dsimp only
  rw [hfail]
  simp only [Bool.false_eq_true, if_false]
  rw [if_pos hrc]
  unfold updateOrderStatus
  dsimp only
  rw [show lookupA [(oid, ord)] oid = some ord from hlook]
  dsimp only
  rw [hfail]
  simp [setA, delS]

theorem applyScans_fail (f : String → ExecutionResult) (oid : String)
    (hfail : ∀ s, (f s).success = false) :
    ∀ (times : List ℕ) (ord : Order),
      ord.retryCount + times.length ≤ MAX_RETRIES →
      applyScans f ⟨[(oid, ord)], [oid]⟩ times =
        ⟨[(oid, { ord with
            retryCount := ord.retryCount + times.length,
            warnings := ord.warnings ++
              List.replicate times.length ((f oid).error.getD "Unknown execution error") })],
          [oid]⟩ := by
  intro times
  induction times with
  | nil =>
    intro ord _
    simp [applyScans]
  | cons tm rest ih =>
    intro ord hb
    have hstep := scan_fail_retry f tm oid ord (hfail oid) (by simp at hb; omega)
    unfold applyScans at ih ⊢
    rw [List.foldl_cons, hstep, ih _ (by simp at hb ⊢; omega)]
    have h1 : ord.retryCount + 1 + rest.length = ord.retryCount + (rest.length + 1) := by
      omega
    simp [List.replicate_succ, List.append_assoc, h1]

/-- C1 counterexample: a fresh always-failing order (retryCount 0) is still
`PENDING` and still in the pending set after exactly `MAX_RETRIES` (= 3)
failed execution attempts — the code checks `retryCount >= MAX_RETRIES`
before incrementing, so the claimed transition to `FAILED` has not yet
happened at that point. -/
theorem order_retry_cap_counterexample :
    (lookupA (applyScans (fun _ => ⟨false, 0, 0, 0, some "Execution conditions not met"⟩)
        ⟨[("o1", orderW)], ["o1"]⟩ [1, 2, 3]).orders "o1").map Order.status =
      some OrderStatus.PENDING ∧
    "o1" ∈ (applyScans (fun _ => ⟨false, 0, 0, 0, some "Execution conditions not met"⟩)
        ⟨[("o1", orderW)], ["o1"]⟩ [1, 2, 3]).pendingOrders := by
  constructor <;> decide

/-- C1 (amended): an order whose execution always fails stays `PENDING`
through the first `MAX_RETRIES` failed attempts and transitions to `FAILED`,
leaving the pending set, on the `MAX_RETRIES + 1`-st failed attempt (the
initial attempt plus `MAX_RETRIES` retries). -/
theorem order_retry_cap (oid : String) (ord : Order)
    (f : String → ExecutionResult) (hfail : ∀ s, (f s).success = false)
    (hrc : ord.retryCount = 0) (hstat : ord.status = OrderStatus.PENDING) :
    (∀ times : List ℕ, times.length ≤ MAX_RETRIES →
      (lookupA (applyScans f ⟨[(oid, ord)], [oid]⟩ times).orders oid).map Order.status =
          some OrderStatus.PENDING ∧
        oid ∈ (applyScans f ⟨[(oid, ord)], [oid]⟩ times).pendingOrders) ∧
    (∀ (times : List ℕ) (tfin : ℕ), times.length = MAX_RETRIES →
      (lookupA (processPendingOrders f tfin
            (applyScans f ⟨[(oid, ord)], [oid]⟩ times)).orders oid).map Order.status =
          some OrderStatus.FAILED ∧
        oid ∉ (processPendingOrders f tfin
            (applyScans f ⟨[(oid, ord)], [oid]⟩ times)).pendingOrders) := by
  constructor
  · intro times hlen
    rw [applyScans_fail f oid hfail times ord (by omega)]
    simp [lookupA, hstat]
  · intro times tfin hlen
    rw [applyScans_fail f oid hfail times ord (by omega)]
    rw [scan_fail_final f tfin oid _ (hfail oid) (by simp [hrc, hlen, MAX_RETRIES])]
    simp [lookupA]

/-- C1 witness: with three failed scans recorded, the fourth failing attempt
marks the concrete order `FAILED` and removes it from the pending set. -/
theorem order_retry_cap_witness :
    (lookupA (processPendingOrders
          (fun _ => ⟨false, 0, 0, 0, some "Execution conditions not met"⟩) 4
          (applyScans (fun _ => ⟨false, 0, 0, 0, some "Execution conditions not met"⟩)
            ⟨[("o1", orderW)], ["o1"]⟩ [1, 2, 3])).orders "o1").map Order.status =
        some OrderStatus.FAILED ∧
      "o1" ∉ (processPendingOrders
          (fun _ => ⟨false, 0, 0, 0, some "Execution conditions not met"⟩) 4
          (applyScans (fun _ => ⟨false, 0, 0, 0, some "Execution conditions not met"⟩)
            ⟨[("o1", orderW)], ["o1"]⟩ [1, 2, 3])).pendingOrders :=
  (order_retry_cap "o1" orderW
      (fun _ => ⟨false, 0, 0, 0, some "Execution conditions not met"⟩)
      (fun _ => rfl) rfl rfl).2 [1, 2, 3] 4 rfl

/-! ### Order state-machine lemmas -/

theorem mem_delS (l : List String) (k x : String) :
    x ∈ delS l k ↔ x ∈ l ∧ x ≠ k := by
  simp [delS]

theorem nodup_delS (l : List String) (k : String) (h : l.Nodup) :
    (delS l k).Nodup :=
  h.filter _

theorem updateOrderStatus_pending (st : OMSState) (pid : String)
    (s : OrderStatus) (r : Option ExecutionResult) (now : ℕ) :
    (updateOrderStatus st pid s r now).pendingOrders = st.pendingOrders := by
  unfold updateOrderStatus
  split
  · rfl
  · rfl

theorem updateOrderStatus_lookup_ne (st : OMSState) (pid : String)
    (s : OrderStatus) (r : Option ExecutionResult) (now : ℕ) (id : String)
    (hid : id ≠ pid) :
    lookupA (updateOrderStatus st pid s r now).orders id = lookupA st.orders id := by
  unfold updateOrderStatus
  split
  · rfl
  · exact lookupA_setA_ne _ _ _ _ hid

theorem updateOrderStatus_lookup_self (st : OMSState) (pid : String)
    (s : OrderStatus) (r : Option ExecutionResult) (now : ℕ) (ord : Order)
    (h : lookupA st.orders pid = some ord) :
    ∃ o', lookupA (updateOrderStatus st pid s r now).orders pid = some o' ∧
      o'.status = s := by
  unfold updateOrderStatus
  rw [h]
  dsimp only
  refine ⟨_, lookupA_setA_self _ _ _, ?_⟩
  cases r with
  | none => rfl
  | some res =>
    by_cases hs : res.success = true
    · simp only [hs, if_true]
    · simp only [eq_false_of_ne_true hs, Bool.false_eq_true, if_false]

theorem processOrderStep_pending_cases (exec : String → ExecutionResult)
    (now : ℕ) (st : OMSState) (pid : String) :
    (processOrderStep exec now st pid).pendingOrders = st.pendingOrders ∨
    (processOrderStep exec now st pid).pendingOrders = delS st.pendingOrders pid := by
  unfold processOrderStep
  split
  · exact Or.inl rfl
  · dsimp only
    split
    · exact Or.inr (by rw [updateOrderStatus_pending])
    · split
      · exact Or.inr (by rw [updateOrderStatus_pending])
      · exact Or.inl rfl

theorem processOrderStep_lookup_ne (exec : String → ExecutionResult)
    (now : ℕ) (st : OMSState) (pid : String) (id : String) (hid : id ≠ pid) :
    lookupA (processOrderStep exec now st pid).orders id = lookupA st.orders id := by
  unfold processOrderStep
  split
  · rfl
  · dsimp only
    split
    · exact updateOrderStatus_lookup_ne _ _ _ _ _ _ hid
    · split
      · exact updateOrderStatus_lookup_ne _ _ _ _ _ _ hid
      · exact lookupA_setA_ne _ _ _ _ hid

theorem StatusStep_refl (o : Order) : StatusStep o o := Or.inl rfl

theorem StatusStep_trans (a b c : Order) (h1 : StatusStep a b)
    (h2 : StatusStep b c) : StatusStep a c := by
  rcases h1 with h1 | ⟨hp1, ht1⟩
  · rcases h2 with h2 | ⟨hp2, ht2⟩
    · exact Or.inl (h2.trans h1)
    · exact Or.inr ⟨h1 ▸ hp2, ht2⟩
  · rcases h2 with h2 | ⟨hp2, ht2⟩
    · exact Or.inr ⟨hp1, by rw [h2]; exact ht1⟩
    · rcases ht1 with ht1 | ht1 | ht1 <;> rw [ht1] at hp2 <;> cases hp2

theorem processOrderStep_exists (exec : String → ExecutionResult) (now : ℕ)
    (st : OMSState) (pid : String) (id : String) (o : Order)
    (h : lookupA st.orders id = some o) :
    ∃ o', lookupA (processOrderStep exec now st pid).orders id = some o' := by
  by_cases hid : id = pid
  · subst hid
    unfold processOrderStep
    rw [h]
    dsimp only
    split
    · exact (updateOrderStatus_lookup_self
        { st with pendingOrders := delS st.pendingOrders id } id
        OrderStatus.FILLED (some (exec id)) now o h).imp fun o' ho' => ho'.1
    · split
      · exact (updateOrderStatus_lookup_self
          { st with pendingOrders := delS st.pendingOrders id } id
          OrderStatus.FAILED (some (exec id)) now o h).imp fun o' ho' => ho'.1
      · exact ⟨_, lookupA_setA_self _ _ _⟩
  · exact ⟨o, by rw [processOrderStep_lookup_ne _ _ _ _ _ hid]; exact h⟩

theorem processOrderStep_status (exec : String → ExecutionResult) (now : ℕ)
    (st : OMSState) (pid : String) (hinv : OMSInv st)
    (hpid : pid ∈ st.pendingOrders) :
    ∀ id o o', lookupA st.orders id = some o →
      lookupA (processOrderStep exec now st pid).orders id = some o' →
      StatusStep o o' := by
  intro id o o' h h'
  by_cases hid : id = pid
  · subst hid
    obtain ⟨ord, hord, hstat⟩ := hinv.2 id hpid
    rw [h] at hord
    cases hord
    unfold processOrderStep at h'
    rw [h] at h'
    dsimp only at h'
    split at h'
    · obtain ⟨o2, ho2, hs2⟩ := updateOrderStatus_lookup_self
        { st with pendingOrders := delS st.pendingOrders id } id
        OrderStatus.FILLED (some (exec id)) now o h
      rw [ho2] at h'
      cases h'
      exact Or.inr ⟨hstat, Or.inl hs2⟩
    · split at h'
      · obtain ⟨o2, ho2, hs2⟩ := updateOrderStatus_lookup_self
          { st with pendingOrders := delS st.pendingOrders id } id
          OrderStatus.FAILED (some (exec id)) now o h
        rw [ho2] at h'
        cases h'
        exact Or.inr ⟨hstat, Or.inr (Or.inr hs2)⟩
      · rw [lookupA_setA_self] at h'
        cases h'
        exact Or.inl rfl
  · rw [processOrderStep_lookup_ne _ _ _ _ _ hid, h] at h'
    cases h'
    exact StatusStep_refl o

theorem processOrderStep_inv (exec : String → ExecutionResult) (now : ℕ)
    (st : OMSState) (pid : String) (hinv : OMSInv st) :
    OMSInv (processOrderStep exec now st pid) := by
  constructor
  · rcases processOrderStep_pending_cases exec now st pid with hp | hp <;> rw [hp]
    · exact hinv.1
    · exact nodup_delS _ _ hinv.1
  · intro x hx
    have hxst : x ∈ st.pendingOrders := by
      rcases processOrderStep_pending_cases exec now st pid with hp | hp <;>
        rw [hp] at hx
      · exact hx
      · exact ((mem_delS _ _ _).mp hx).1
    obtain ⟨o, ho, hstat⟩ := hinv.2 x hxst
    by_cases hxpid : x = pid
    · subst hxpid
      -- x was processed: it can only still be pending via the retry branch
      unfold processOrderStep at hx ⊢
      rw [ho] at hx ⊢
      dsimp only at hx ⊢
      split at hx
      · next hsucc =>
        rw [updateOrderStatus_pending] at hx
        exact absurd ((mem_delS _ _ _).mp hx).2 (by simp)
      · split at hx
        · rw [updateOrderStatus_pending] at hx
          exact absurd ((mem_delS _ _ _).mp hx).2 (by simp)
        · next hsucc hrc =>
          rw [if_neg hsucc, if_neg hrc]
          exact ⟨_, lookupA_setA_self _ _ _, hstat⟩
    · exact ⟨o, by rw [processOrderStep_lookup_ne _ _ _ _ _ hxpid]; exact ho, hstat⟩

theorem scan_fold_spec (exec : String → ExecutionResult) (now : ℕ) :
    ∀ (l : List String) (st : OMSState), OMSInv st → l.Nodup →
      (∀ pid ∈ l, pid ∈ st.pendingOrders) →
      OMSInv (l.foldl (processOrderStep exec now) st) ∧
      (∀ id o o', lookupA st.orders id = some o →
        lookupA (l.foldl (processOrderStep exec now) st).orders id = some o' →
        StatusStep o o') := by
  intro l
  induction l with
  | nil =>
    intro st hinv _ _
    refine ⟨hinv, ?_⟩
    intro id o o' h h'
    simp only [List.foldl_nil] at h'
    rw [h] at h'
    cases h'
    exact StatusStep_refl o
  | cons pid tl ih =>
    intro st hinv hnd hl
    rw [List.nodup_cons] at hnd
    have hpid : pid ∈ st.pendingOrders := hl pid (by simp)
    have hinv1 : OMSInv (processOrderStep exec now st pid) :=
      processOrderStep_inv exec now st pid hinv
    have htl : ∀ q ∈ tl, q ∈ (processOrderStep exec now st pid).pendingOrders := by
      intro q hq
      have hqpid : q ≠ pid := fun he => hnd.1 (he ▸ hq)
      have hqst : q ∈ st.pendingOrders := hl q (by simp [hq])
      rcases processOrderStep_pending_cases exec now st pid with hp | hp <;> rw [hp]
      · exact hqst
      · exact (mem_delS _ _ _).mpr ⟨hqst, hqpid⟩
    obtain ⟨hinvF, hstepF⟩ := ih (processOrderStep exec now st pid) hinv1 hnd.2 htl
    rw [List.foldl_cons]
    refine ⟨hinvF, ?_⟩
    intro id o o' h h'
    obtain ⟨o1, ho1⟩ := processOrderStep_exists exec now st pid id o h
    exact StatusStep_trans o o1 o'
      (processOrderStep_status exec now st pid hinv hpid id o o1 h ho1)
      (hstepF id o1 o' ho1 h')

theorem processPendingOrders_inv (exec : String → ExecutionResult) (now : ℕ)
    (st : OMSState) (hinv : OMSInv st) :
    OMSInv (processPendingOrders exec now st) :=
  (scan_fold_spec exec now st.pendingOrders st hinv hinv.1 (fun _ h => h)).1

theorem processPendingOrders_status (exec : String → ExecutionResult) (now : ℕ)
    (st : OMSState) (hinv : OMSInv st) :
    ∀ id o o', lookupA st.orders id = some o →
      lookupA (processPendingOrders exec now st).orders id = some o' →
      StatusStep o o' :=
  (scan_fold_spec exec now st.pendingOrders st hinv hinv.1 (fun _ h => h)).2

theorem createOrder_inv (st : OMSState) (mint : String) (side : OrderSide)
    (otype : OrderType) (amount : ℚ) (price : Option ℚ) (risk : TradeDecision)
    (newId : String) (now : ℕ) (hinv : OMSInv st)
    (hfresh : lookupA st.orders newId = none) :
    OMSInv (createOrder st mint side otype amount price risk newId now).2 := by
  have hnotpending : newId ∉ st.pendingOrders := by
    intro hmem
    obtain ⟨o, ho, -⟩ := hinv.2 newId hmem
    rw [hfresh] at ho
    cases ho
  unfold createOrder
  split
  · exact hinv
  · split
    · exact hinv
    · constructor
      · dsimp only [addS]
        rw [if_neg hnotpending]
        simp [List.nodup_append, hinv.1, hnotpending]
      · intro x hx
        dsimp only [addS] at hx
        rw [if_neg hnotpending] at hx
        rcases List.mem_append.mp hx with hx | hx
        · obtain ⟨o, ho, hstat⟩ := hinv.2 x hx
          have hxne : x ≠ newId := by
            intro he
            rw [he, hfresh] at ho
            cases ho
          exact ⟨o, by
            dsimp only
            rw [lookupA_setA_ne _ _ _ _ hxne]
            exact ho, hstat⟩
        · simp only [List.mem_singleton] at hx
          subst hx
          exact ⟨_, lookupA_setA_self _ _ _, rfl⟩

theorem createOrder_status (st : OMSState) (mint : String) (side : OrderSide)
    (otype : OrderType) (amount : ℚ) (price : Option ℚ) (risk : TradeDecision)
    (newId : String) (now : ℕ) (hfresh : lookupA st.orders newId = none) :
    ∀ id o o', lookupA st.orders id = some o →
      lookupA (createOrder st mint side otype amount price risk newId now).2.orders
          id = some o' →
      StatusStep o o' := by
  intro id o o' h h'
  have hne : id ≠ newId := by
    intro he
    rw [he, hfresh] at h
    cases h
  unfold createOrder at h'
  split at h'
  · rw [h] at h'; cases h'; exact StatusStep_refl o
  · split at h'
    · rw [h] at h'; cases h'; exact StatusStep_refl o
    · dsimp only at h'
      rw [lookupA_setA_ne _ _ _ _ hne, h] at h'
      cases h'
      exact StatusStep_refl o

theorem cancelOrder_inv (st : OMSState) (orderId : String) (now : ℕ)
    (hinv : OMSInv st) : OMSInv (cancelOrder st orderId now).2 := by
  unfold cancelOrder
  split
  · exact hinv
  · next ord hord =>
    split
    · exact hinv
    · dsimp only
      constructor
      · rw [updateOrderStatus_pending]
        exact nodup_delS _ _ hinv.1
      · intro x hx
        rw [updateOrderStatus_pending] at hx
        obtain ⟨hxmem, hxne⟩ := (mem_delS _ _ _).mp hx
        obtain ⟨o, ho, hstat⟩ := hinv.2 x hxmem
        exact ⟨o, by
          rw [updateOrderStatus_lookup_ne _ _ _ _ _ _ hxne]
          exact ho, hstat⟩

theorem cancelOrder_status (st : OMSState) (orderId : String) (now : ℕ) :
    ∀ id o o', lookupA st.orders id = some o →
      lookupA (cancelOrder st orderId now).2.orders id = some o' →
      StatusStep o o' := by
  intro id o o' h h'
  unfold cancelOrder at h'
  split at h'
  · rw [h] at h'; cases h'; exact StatusStep_refl o
  · next ord hord =>
    split at h'
    · rw [h] at h'; cases h'; exact StatusStep_refl o
    · next hpend =>
      dsimp only at h'
      by_cases hid : id = orderId
      · subst hid
        rw [h] at hord
        cases hord
        obtain ⟨o2, ho2, hs2⟩ := updateOrderStatus_lookup_self
          { st with pendingOrders := delS st.pendingOrders id } id
          OrderStatus.CANCELLED none now o h
        rw [ho2] at h'
        cases h'
        have hstat : o.status = OrderStatus.PENDING := by
          by_contra hc
          exact hpend hc
        exact Or.inr ⟨hstat, Or.inr (Or.inl hs2)⟩
      · rw [updateOrderStatus_lookup_ne _ _ _ _ _ _ hid, h] at h'
        cases h'
        exact StatusStep_refl o

theorem Reachable_inv (st : OMSState) (h : Reachable st) : OMSInv st := by
  induction h with
  | init =>
    constructor
    · exact List.nodup_nil
    · intro id hid
      cases hid
  | step st1 op hreach1 hok ih =>
    cases op with
    | create mint side otype amount price risk newId now =>
      exact createOrder_inv st1 mint side otype amount price risk newId now ih hok
    | scan exec now => exact processPendingOrders_inv exec now st1 ih
    | cancel orderId now => exact cancelOrder_inv st1 orderId now ih

/-- C2: over any sequence of `createOrder` (fresh ids), execution scans and
`cancelOrder` from the initial state, a stored order's status either stays
put or moves from `PENDING` to one of `FILLED`, `CANCELLED`, `FAILED`; in
particular no operation moves an order out of a terminal state. -/
theorem order_status_machine (st : OMSState) (hreach : Reachable st)
    (op : OMOp) (hok : OMOpOk st op) :
    ∀ id o o', lookupA st.orders id = some o →
      lookupA (applyOMOp st op).orders id = some o' → StatusStep o o' := by
  have hinv := Reachable_inv st hreach
  cases op with
  | create mint side otype amount price risk newId now =>
    exact createOrder_status st mint side otype amount price risk newId now hok
  | scan exec now => exact processPendingOrders_status exec now st hinv
  | cancel orderId now => exact cancelOrder_status st orderId now







/-- C2 witness: create an order, then cancel it — the observed status step
is the legal `PENDING → CANCELLED` transition. -/
theorem order_status_machine_witness : StatusStep orderC orderCCancelled :=
  order_status_machine (applyOMOp OMSState.init createOpC)
    (Reachable.step OMSState.init createOpC Reachable.init rfl)
    (OMOp.cancel "o1" 3) trivial "o1" orderC orderCCancelled
    (by decide) (by decide)

end Grok3
